import Mathlib

/-!
Verification development for the text-cleaning / translation-cache core of the
bilingual translation pipeline (`translation.py`, class
`BilingualTranslationPipeline`).

The Python code is shallowly embedded: strings are Lean `String`s (lists of
Unicode scalar values), the two external collaborators that the core calls into
(`unicodedata.normalize('NFKD', ·)` and `emoji.replace_emoji(·, replace='')`)
are passed as function parameters `nfkd` and `er`, and the model engine
(tokenizer + `model.generate` + decode) is a parameter
`engine : Option String → Except String String` that receives the cleaned text
(which may be the rejected marker `none`, mirroring `None` in Python) and either
returns the decoded raw translation or fails.  Exceptions are modelled by
`Except String`.
-/

/-- Python whitespace (`str.isspace` / the `re` class `\s` on `str` patterns):
ASCII whitespace, the C1 separators 1C–1F, NEL, NBSP, and the Unicode space
separators. -/
def isPySpace (c : Char) : Bool :=
  c == ' ' || c == '\t' || c == '\n' || c == '\r' ||
  c.toNat == 0x0B || c.toNat == 0x0C ||
  (0x1C ≤ c.toNat && c.toNat ≤ 0x1F) || c.toNat == 0x85 || c.toNat == 0xA0 ||
  c.toNat == 0x1680 || (0x2000 ≤ c.toNat && c.toNat ≤ 0x200A) ||
  c.toNat == 0x2028 || c.toNat == 0x2029 || c.toNat == 0x202F ||
  c.toNat == 0x205F || c.toNat == 0x3000

/-- Letters and digits of the Arabic block that Python's `\w` (Unicode
alphanumerics) matches; the combining marks of the block are not word
characters. -/
def isArabicWordChar (c : Char) : Bool :=
  (0x620 ≤ c.toNat && c.toNat ≤ 0x64A) ||
  (0x660 ≤ c.toNat && c.toNat ≤ 0x669) ||
  (0x66E ≤ c.toNat && c.toNat ≤ 0x66F) ||
  (0x671 ≤ c.toNat && c.toNat ≤ 0x6D3) || c.toNat == 0x6D5 ||
  (0x6E5 ≤ c.toNat && c.toNat ≤ 0x6E6) ||
  (0x6EE ≤ c.toNat && c.toNat ≤ 0x6EF) ||
  (0x6F0 ≤ c.toNat && c.toNat ≤ 0x6F9) ||
  (0x6FA ≤ c.toNat && c.toNat ≤ 0x6FC) || c.toNat == 0x6FF

/-- Python's `\w` (a word character: Unicode alphanumeric or underscore),
restricted to the ASCII and Arabic repertoire this development evaluates on. -/
def isWordChar (c : Char) : Bool :=
  ('a' ≤ c && c ≤ 'z') || ('A' ≤ c && c ≤ 'Z') ||
  ('0' ≤ c && c ≤ '9') || c == '_' || isArabicWordChar c

/-- One step of `re.sub(r'\s+', ' ', text)`: every maximal whitespace run
becomes a single ASCII space. -/
def collapseAux : List Char → List Char
  | [] => []
  | [c] => [if isPySpace c then ' ' else c]
  | c :: d :: rest =>
    if isPySpace c && isPySpace d then collapseAux (d :: rest)
    else (if isPySpace c then ' ' else c) :: collapseAux (d :: rest)

/-- `re.sub(r'\s+', ' ', text)` of `translation.py` line 173. -/
def collapseWs (s : String) : String := ⟨collapseAux s.data⟩

/-- Remove trailing Python whitespace (the right half of `str.strip()`). -/
def dropTrail (l : List Char) : List Char :=
  (l.reverse.dropWhile isPySpace).reverse

/-- `str.strip()` on the character list: drop leading and trailing Python
whitespace. -/
def stripL (l : List Char) : List Char := dropTrail (l.dropWhile isPySpace)

/-- Python `str.strip()`. -/
def pyStrip (s : String) : String := ⟨stripL s.data⟩

/-- The composite `re.sub(r'\s+', ' ', text).strip()` of line 173. -/
def normWS (s : String) : String := pyStrip (collapseWs s)

/-- The Arabic normalization table `self.arabic_normalizer` (lines 84–87):
hamza-bearing and wasla alef forms to bare alef, alef maqsura to ya, teh
marbuta to heh; all other characters pass through. -/
def arabicNormTable (c : Char) : Char :=
  if c = 'إ' || c = 'أ' || c = 'آ' || c = 'ٱ' then 'ا'
  else if c = 'ى' then 'ي'
  else if c = 'ة' then 'ه'
  else c

/-- Membership in the Arabic tashkil range U+064B–U+065F deleted by
`re.sub(r'[ً-ٟ]', '', text)` (line 125). -/
def isTashkil (c : Char) : Bool := 0x64B ≤ c.toNat && c.toNat ≤ 0x65F

/-- `normalize_arabic` (lines 122–126), parameterized by the external
`unicodedata.normalize('NFKD', ·)` collaborator `nfkd`: NFKD, then the
character table, then deletion of the tashkil range. -/
def normalize_arabic (nfkd : String → String) (s : String) : String :=
  ⟨((nfkd s).data.map arabicNormTable).filter (fun c => !isTashkil c)⟩

/-- The punctuation allowlist of the Arabic cleaning class
`[^\w\s؀-ۿ.,!?؛،:'"()\-]` (line 178). -/
def arPunctKeep (c : Char) : Bool :=
  c == '.' || c == ',' || c == '!' || c == '?' || c == '؛' || c == '،' ||
  c == ':' || c.toNat == 39 || c.toNat == 34 || c == '(' || c == ')' || c == '-'

/-- The punctuation allowlist of the non-Arabic cleaning class
`[^\w\s.,!?'"()\-]` (line 180). -/
def enPunctKeep (c : Char) : Bool :=
  c == '.' || c == ',' || c == '!' || c == '?' ||
  c.toNat == 39 || c.toNat == 34 || c == '(' || c == ')' || c == '-'

/-- Characters kept by the Arabic cleaning substitution (line 178): word
characters, whitespace, the whole Arabic block U+0600–U+06FF, and the
punctuation allowlist. -/
def arKeep (c : Char) : Bool :=
  isWordChar c || isPySpace c ||
  (0x600 ≤ c.toNat && c.toNat ≤ 0x6FF) || arPunctKeep c

/-- Characters kept by the non-Arabic cleaning substitution (line 180). -/
def enKeep (c : Char) : Bool :=
  isWordChar c || isPySpace c || enPunctKeep c

/-- `re.sub(r'[^...]', ' ', text)`: each disallowed character is replaced by a
single space (lines 178 and 180). -/
def subKeep (keep : Char → Bool) (s : String) : String :=
  ⟨s.data.map (fun c => if keep c then c else ' ')⟩

/-- The transformation chain of `clean_text` (lines 173–180) on a string that
is already known to be a `str`: whitespace collapse and strip, emoji removal
(the external collaborator `er`), then the language branch. -/
def cleanCore (nfkd er : String → String) (t : String) (lang : String) : String :=
  let t1 := normWS t
  let t2 := er t1
  if lang = "ar" then subKeep arKeep (normalize_arabic nfkd t2)
  else subKeep enKeep t2

/-- `clean_text` (lines 169–182).  The input is `Option String`: callers pass
either a string or the rejected marker `None`; a non-string input is coerced by
`str(...)` (line 171), so `None` becomes the four-letter string "None".  The
final line `return text if text else None` yields the rejected marker exactly
when the transformed text is empty. -/
def clean_text (nfkd er : String → String) (text : Option String)
    (lang : String) : Option String :=
  let s := match text with
    | none => "None"
    | some s => s
  let r := cleanCore nfkd er s lang
  if r = "" then none else some r

/-- Does the list start with the given pattern of characters? -/
def startsWithL : List Char → List Char → Bool
  | [], _ => true
  | _, [] => false
  | a :: as, b :: bs => a == b && startsWithL as bs

/-- The `\b` test after the second article of the pattern
`\b(a|an|the)\s+(a|an|the)\b` (line 594): the next character is absent or is
not a word character (article words end in a word character). -/
def artBoundaryAfter : List Char → Bool
  | [] => true
  | c :: _ => !isWordChar c

/-- Try the alternatives of the second article group in the order of the
pattern `(a|an|the)`; on success return the remainder after the article. -/
def trySecondArticle : List (List Char) → List Char → Option (List Char)
  | [], _ => none
  | b :: bs, l2 =>
    if startsWithL b l2 && artBoundaryAfter (l2.drop b.length) then
      some (l2.drop b.length)
    else trySecondArticle bs l2

/-- Try one alternative of the first article group: the article itself, then
`\s+` (a non-empty whitespace run; articles start with a non-space character,
so the greedy run is never backtracked), then the second article group.  On
success return the article (the replacement `\1`) and the remainder after the
whole match. -/
def tryFirstArticle (art l : List Char) : Option (List Char × List Char) :=
  if startsWithL art l then
    let l1 := l.drop art.length
    let ws := l1.takeWhile isPySpace
    if ws.isEmpty then none
    else
      match trySecondArticle ["a".data, "an".data, "the".data]
          (l1.drop ws.length) with
      | some rest => some (art, rest)
      | none => none
  else none

/-- A match attempt of `\b(a|an|the)\s+(a|an|the)\b` at the current position:
the leading `\b` requires the previous character to be a non-word character
(or the start of the string), and the first group tries `a`, `an`, `the` in
order. -/
def tryArticleMatch (prevWord : Bool) (l : List Char) :
    Option (List Char × List Char) :=
  if prevWord then none
  else match tryFirstArticle "a".data l with
    | some r => some r
    | none => match tryFirstArticle "an".data l with
      | some r => some r
      | none => tryFirstArticle "the".data l

/-- The left-to-right scan of `re.sub(r'\b(a|an|the)\s+(a|an|the)\b', r'\1',
text)`: on a match emit the first article and resume after the match (the last
matched character is a word character, so the resumed position is not at a
word boundary); otherwise emit one character and advance.  The fuel is an
upper bound on the number of steps; every step consumes at least one
character, so `l.length` suffices. -/
def articleSubAux : Nat → Bool → List Char → List Char
  | 0, _, l => l
  | fuel + 1, prevWord, l =>
    match tryArticleMatch prevWord l with
    | some (art, rest) => art ++ articleSubAux fuel true rest
    | none =>
      match l with
      | [] => []
      | c :: rest => c :: articleSubAux fuel (isWordChar c) rest

/-- `re.sub(r'\b(a|an|the)\s+(a|an|the)\b', r'\1', text)` (line 594).  The
pattern is lowercase and carries no ignore-case flag, so matching is
case-sensitive. -/
def articleSub (s : String) : String := ⟨articleSubAux s.data.length false s.data⟩

/-- The scan of `re.sub(r'\s([PUNCT](?:\s|$))', r'\1', text)` (lines 595 and
600): a single whitespace character followed by a punctuation character from
`puncts` is deleted when the punctuation is followed by whitespace (which the
match consumes as part of group 1) or by the end of the string; otherwise the
scan advances one character. -/
def punctSpaceSubAux (puncts : List Char) : Nat → List Char → List Char
  | 0, l => l
  | _, [] => []
  | fuel + 1, c :: rest =>
    if isPySpace c then
      match rest with
      | [] => [c]
      | p :: rest2 =>
        if puncts.contains p then
          match rest2 with
          | [] => [p]
          | d :: rest3 =>
            if isPySpace d then p :: d :: punctSpaceSubAux puncts fuel rest3
            else c :: punctSpaceSubAux puncts fuel rest
        else c :: punctSpaceSubAux puncts fuel rest
    else c :: punctSpaceSubAux puncts fuel rest

/-- `re.sub(r'\s([PUNCT](?:\s|$))', r'\1', s)` for a class of single
punctuation characters. -/
def punctSpaceSub (puncts : List Char) (s : String) : String :=
  ⟨punctSpaceSubAux puncts s.data.length s.data⟩

/-- `str.replace(old, new)` for single-character arguments. -/
def pyReplaceChar (old new : Char) (s : String) : String :=
  ⟨s.data.map (fun c => if c = old then new else c)⟩

/-- The ar-en post-processing branch (lines 592–595):
`translated_text[0].upper() + translated_text[1:]` raises an IndexError when
the raw output is empty; otherwise capitalize the first character (modelled
with ASCII uppercasing; Arabic characters have no case), collapse article
pairs, and delete a space before `? . ! , ;` when followed by whitespace or
the end of the string. -/
def postprocessArEn (raw : String) : Except String String :=
  match raw.data with
  | [] => Except.error "IndexError: string index out of range"
  | c :: rest =>
    Except.ok (punctSpaceSub ['?', '.', '!', ',', ';']
      (articleSub ⟨c.toUpper :: rest⟩))

/-- The en-ar post-processing branch (lines 596–600): replace `.` with the
Arabic full stop, `,` with the Arabic comma, the ASCII double quote with the
opening angle quote and the ASCII apostrophe with the closing angle quote,
then delete a space before `؟ ، ؛` when followed by whitespace or the end of
the string.  The Arabic full stop is not in the space-deletion class. -/
def postprocessEnAr (raw : String) : String :=
  let t := pyReplaceChar '.' '۔' raw
  let t := pyReplaceChar ',' '،' t
  let t := pyReplaceChar (Char.ofNat 34) '«' t
  let t := pyReplaceChar (Char.ofNat 39) '»' t
  punctSpaceSub ['؟', '،', '؛'] t

/-- The two directions of `MODEL_CONFIGS` (lines 40–68). -/
inductive Direction where
  | arEn
  | enAr
deriving DecidableEq

/-- `config['src_lang']`: `ar` for ar-en, `en` for en-ar. -/
def srcLangOf : Direction → String
  | Direction.arEn => "ar"
  | Direction.enAr => "en"

/-- The dictionary stored in `self.translation_cache[text]` (lines 602–606). -/
structure TranslationResult where
  original : String
  cleaned : Option String
  translated : String
deriving DecidableEq

/-- The per-direction pipeline state visible to `translate_text`: the fixed
direction and the translation cache (`self.translation_cache`, an exact-match
dictionary modelled as an association list whose most recent entry wins). -/
structure PipelineState where
  direction : Direction
  cache : List (String × TranslationResult)
deriving DecidableEq

/-- Exact-string dictionary lookup (`text in self.translation_cache` followed
by `self.translation_cache[text]`). -/
def cacheLookup (c : List (String × TranslationResult)) (k : String) :
    Option TranslationResult :=
  match c with
  | [] => none
  | (k', v) :: rest => if k' = k then some v else cacheLookup rest k

/-- Lines 602–609: assemble the result dictionary (the `translated` field is
`translated_text.strip()`), store it in the cache under the unmodified
original `text`, and return it. -/
def storeResult (p : PipelineState) (text : String) (cleaned : Option String)
    (t : String) :
    Except String TranslationResult × PipelineState × List (Option String) :=
  (Except.ok ⟨text, cleaned, pyStrip t⟩,
   ⟨p.direction, (text, ⟨text, cleaned, pyStrip t⟩) :: p.cache⟩, [cleaned])

/-- The cache-miss path of `translate_text` (lines 588–609), given the already
cleaned text: invoke the engine with it (exactly once — the invocation list is
`[cleaned]` on every outcome of this path), post-process by direction, then
assemble and store.  An engine failure or a post-processing failure re-raises
and leaves the state untouched. -/
def translateMiss (engine : Option String → Except String String)
    (p : PipelineState) (text : String) (cleaned : Option String) :
    Except String TranslationResult × PipelineState × List (Option String) :=
  match engine cleaned with
  | Except.error e => (Except.error e, p, [cleaned])
  | Except.ok raw =>
    match p.direction with
    | Direction.arEn =>
      match postprocessArEn raw with
      | Except.error e => (Except.error e, p, [cleaned])
      | Except.ok t => storeResult p text cleaned t
    | Direction.enAr => storeResult p text cleaned (postprocessEnAr raw)

/-- `translate_text` (lines 580–612), parameterized by the external model
engine (tokenizer + `generate` + decode, which receives the cleaned text —
possibly the rejected marker — and may fail) and the two external cleaning
collaborators.  Returns the outcome, the updated state, and the list of engine
invocations made during the call (the argument of each invocation; the cache
hit path performs none).  On any failure the `except` clause of the source
logs and re-raises, leaving the cache untouched. -/
def translate_text (engine : Option String → Except String String)
    (nfkd er : String → String) (p : PipelineState) (text : String) :
    Except String TranslationResult × PipelineState × List (Option String) :=
  match cacheLookup p.cache text with
  | some r => (Except.ok r, p, [])
  | none =>
    translateMiss engine p text
      (clean_text nfkd er (some text) (srcLangOf p.direction))

/-- Stand-in for `unicodedata.normalize('NFKD', ·)` in concrete witnesses: the
identity, which agrees with NFKD on every string evaluated in this file (ASCII
text, base Arabic letters and punctuation, and the emoji U+1F600 are all NFKD
inert). -/
def nfkdStub : String → String := fun s => s

/-- Stand-in for `emoji.replace_emoji(·, replace='')` in concrete witnesses:
`emoji.replace_emoji` acts as the identity on emoji-free strings and deletes
the emoji-only string used in the rejection example. -/
def erStub : String → String := fun s => if s = "😀😀😀" then "" else s

/-- A call-counting-style stub engine for concrete runs: echoes a cleaned
string, and fails the way the HuggingFace tokenizer fails when handed the
rejected marker `None`. -/
def engineEcho : Option String → Except String String
  | none => Except.error "ValueError: text input must be of type str"
  | some s => Except.ok s

/-- No two adjacent characters of the list are both Python whitespace. -/
def NoTwoSpaces (l : List Char) : Prop :=
  List.Chain' (fun a b => ¬(isPySpace a = true ∧ isPySpace b = true)) l

/-- Every Python-whitespace character of the list is the ASCII space. -/
def SpacesBlank (l : List Char) : Prop :=
  ∀ c ∈ l, isPySpace c = true → c = ' '

theorem collapseAux_cons_not_space (c : Char) (l : List Char)
    (hc : isPySpace c = false) : collapseAux (c :: l) = c :: collapseAux l := by
  cases l with
  | nil => simp [collapseAux, hc]
  | cons d rest => simp [collapseAux, hc]

theorem collapseAux_canon (l : List Char) :
    NoTwoSpaces (collapseAux l) ∧ SpacesBlank (collapseAux l) := by
  induction l with
  | nil => simp [collapseAux, NoTwoSpaces, SpacesBlank]
  | cons c tail ih =>
    cases tail with
    | nil =>
      constructor
      · simp [collapseAux, NoTwoSpaces]
      · intro x hx hsp
        simp only [collapseAux, List.mem_singleton] at hx
        subst hx
        by_cases hc : isPySpace c = true
        · simp [hc]
        · simp only [Bool.not_eq_true] at hc
          rw [if_neg (by simp [hc])] at hsp
          rw [hc] at hsp
          exact absurd hsp (by simp)
    | cons d rest =>
      by_cases h : (isPySpace c && isPySpace d) = true
      · have : collapseAux (c :: d :: rest) = collapseAux (d :: rest) := by
          simp [collapseAux, h]
        rw [this]; exact ih
      · have hne : ¬(isPySpace c = true ∧ isPySpace d = true) := by
          simpa [Bool.and_eq_true] using h
        have hrw : collapseAux (c :: d :: rest) =
            (if isPySpace c then ' ' else c) :: collapseAux (d :: rest) := by
          simp only [collapseAux, if_neg h]
        constructor
        · rw [hrw]
          rw [NoTwoSpaces, List.chain'_cons']
          refine ⟨?_, ih.1⟩
          intro y hy
          by_cases hc : isPySpace c = true
          · have hd : isPySpace d = false := by
              rcases Bool.eq_false_or_eq_true (isPySpace d) with hd | hd
              · exact absurd ⟨hc, hd⟩ hne
              · exact hd
            rw [collapseAux_cons_not_space d rest hd] at hy
            simp only [List.head?_cons, Option.mem_def, Option.some.injEq] at hy
            subst hy
            intro hcontra
            rw [hd] at hcontra
            exact absurd hcontra.2 (by simp)
          · simp only [Bool.not_eq_true] at hc
            rw [if_neg (by simp [hc])]
            intro hcontra
            rw [hc] at hcontra
            exact absurd hcontra.1 (by simp)
        · rw [hrw]
          intro x hx hsp
          rcases List.mem_cons.mp hx with hx | hx
          · subst hx
            by_cases hc : isPySpace c = true
            · simp [hc]
            · simp only [Bool.not_eq_true] at hc
              rw [if_neg (by simp [hc])] at hsp ⊢
              rw [hc] at hsp
              exact absurd hsp (by simp)
          · exact ih.2 x hx hsp

theorem collapseAux_eq_self (l : List Char) (h1 : NoTwoSpaces l)
    (h2 : SpacesBlank l) : collapseAux l = l := by
  induction l with
  | nil => rfl
  | cons c tail ih =>
    cases tail with
    | nil =>
      by_cases hc : isPySpace c = true
      · have : c = ' ' := h2 c (by simp) hc
        simp [collapseAux, hc, this]
      · simp only [Bool.not_eq_true] at hc
        simp [collapseAux, hc]
    | cons d rest =>
      have hpair : ¬(isPySpace c = true ∧ isPySpace d = true) :=
        (List.chain'_cons.mp h1).1
      have htl : collapseAux (d :: rest) = d :: rest :=
        ih (List.chain'_cons.mp h1).2 (fun x hx hs => h2 x (by simp [hx]) hs)
      by_cases hc : isPySpace c = true
      · have hd : isPySpace d = false := by
          rcases Bool.eq_false_or_eq_true (isPySpace d) with hd | hd
          · exact absurd ⟨hc, hd⟩ hpair
          · exact hd
        have hceq : c = ' ' := h2 c (by simp) hc
        simp [collapseAux, hc, hd, hceq, htl]
      · simp only [Bool.not_eq_true] at hc
        simp [collapseAux, hc, htl]

theorem mem_dropWhileSp {c : Char} {l : List Char}
    (h : c ∈ l.dropWhile isPySpace) : c ∈ l := by
  induction l with
  | nil => simp at h
  | cons a t ih =>
    rw [List.dropWhile_cons] at h
    by_cases ha : isPySpace a = true
    · rw [if_pos ha] at h
      exact List.mem_cons_of_mem a (ih h)
    · rw [if_neg ha] at h
      exact h

theorem chain'_dropWhileSp {R : Char → Char → Prop} {l : List Char}
    (h : List.Chain' R l) : List.Chain' R (l.dropWhile isPySpace) := by
  induction l with
  | nil => simp
  | cons a t ih =>
    rw [List.dropWhile_cons]
    by_cases ha : isPySpace a = true
    · rw [if_pos ha]
      exact ih h.tail
    · rw [if_neg ha]
      exact h

theorem dropWhileSp_head_false {l t : List Char} {c : Char}
    (h : l.dropWhile isPySpace = c :: t) : isPySpace c = false := by
  induction l with
  | nil => simp at h
  | cons a t' ih =>
    rw [List.dropWhile_cons] at h
    by_cases ha : isPySpace a = true
    · rw [if_pos ha] at h
      exact ih h
    · rw [if_neg ha] at h
      obtain ⟨rfl, -⟩ := List.cons.injEq .. |>.mp h |>.imp id id
      simpa using ha

theorem dropWhileSp_idem (l : List Char) :
    (l.dropWhile isPySpace).dropWhile isPySpace = l.dropWhile isPySpace := by
  cases hl : l.dropWhile isPySpace with
  | nil => rfl
  | cons c t =>
    rw [List.dropWhile_cons, if_neg (by simp [dropWhileSp_head_false hl])]

theorem dropWhileSp_append_single {c : Char} (hc : isPySpace c = false) :
    ∀ A : List Char,
      (A ++ [c]).dropWhile isPySpace = A.dropWhile isPySpace ++ [c] := by
  intro A
  induction A with
  | nil => simp [List.dropWhile_cons, hc]
  | cons a t ih =>
    rw [List.cons_append, List.dropWhile_cons, List.dropWhile_cons]
    by_cases ha : isPySpace a = true
    · rw [if_pos ha, if_pos ha, ih]
    · rw [if_neg ha, if_neg ha, List.cons_append]

theorem dropTrail_cons_not_space {c : Char} (hc : isPySpace c = false)
    (l : List Char) : dropTrail (c :: l) = c :: dropTrail l := by
  unfold dropTrail
  rw [List.reverse_cons, dropWhileSp_append_single hc, List.reverse_append]
  rfl

theorem dropTrail_idem (l : List Char) : dropTrail (dropTrail l) = dropTrail l := by
  unfold dropTrail
  rw [List.reverse_reverse, dropWhileSp_idem]

theorem mem_dropTrail {c : Char} {l : List Char} (h : c ∈ dropTrail l) :
    c ∈ l := by
  unfold dropTrail at h
  rw [List.mem_reverse] at h
  exact List.mem_reverse.mp (mem_dropWhileSp h)

theorem noTwoSpaces_dropTrail {l : List Char} (h : NoTwoSpaces l) :
    NoTwoSpaces (dropTrail l) := by
  unfold NoTwoSpaces at h ⊢
  unfold dropTrail
  rw [List.chain'_reverse]
  apply chain'_dropWhileSp
  rw [List.chain'_reverse]
  exact h

theorem stripL_idem (l : List Char) : stripL (stripL l) = stripL l := by
  unfold stripL
  cases hX : l.dropWhile isPySpace with
  | nil =>
    simp [dropTrail]
  | cons c X' =>
    have hc : isPySpace c = false := dropWhileSp_head_false hX
    rw [dropTrail_cons_not_space hc]
    rw [List.dropWhile_cons, if_neg (by simp [hc])]
    rw [dropTrail_cons_not_space hc, dropTrail_idem]

theorem noTwoSpaces_stripL {l : List Char} (h : NoTwoSpaces l) :
    NoTwoSpaces (stripL l) :=
  noTwoSpaces_dropTrail (chain'_dropWhileSp h)

theorem spacesBlank_stripL {l : List Char} (h : SpacesBlank l) :
    SpacesBlank (stripL l) := fun c hc hs =>
  h c (mem_dropWhileSp (mem_dropTrail hc)) hs

theorem normWS_idem (s : String) : normWS (normWS s) = normWS s := by
  show pyStrip (collapseWs (pyStrip (collapseWs s))) = pyStrip (collapseWs s)
  unfold pyStrip collapseWs
  have hdata : (String.mk (collapseAux s.data)).data = collapseAux s.data := rfl
  rw [hdata]
  have hz := collapseAux_canon s.data
  have hy1 : NoTwoSpaces (stripL (collapseAux s.data)) := noTwoSpaces_stripL hz.1
  have hy2 : SpacesBlank (stripL (collapseAux s.data)) := spacesBlank_stripL hz.2
  have h1 : (String.mk (stripL (collapseAux s.data))).data
      = stripL (collapseAux s.data) := rfl
  rw [h1, collapseAux_eq_self _ hy1 hy2, stripL_idem]

theorem subKeep_eq_self (keep : Char → Bool) (s : String)
    (h : ∀ c ∈ s.data, keep c = true) : subKeep keep s = s := by
  unfold subKeep
  have hmap : s.data.map (fun c => if keep c then c else ' ') = s.data := by
    conv_rhs => rw [← List.map_id s.data]
    exact List.map_congr_left (fun c hc => by rw [if_pos (h c hc)]; rfl)
  rw [hmap]

theorem cleanCore_of_fixed (nfkd er : String → String) (lang x : String)
    (h1 : er (normWS x) = normWS x)
    (h2 : lang = "ar" → normalize_arabic nfkd (normWS x) = normWS x)
    (h3 : ∀ c ∈ (normWS x).data,
      (if lang = "ar" then arKeep c else enKeep c) = true) :
    cleanCore nfkd er x lang = normWS x := by
  simp only [cleanCore]
  rw [h1]
  by_cases hl : lang = "ar"
  · rw [if_pos hl, h2 hl]
    refine subKeep_eq_self _ _ (fun c hc => ?_)
    have := h3 c hc
    rwa [if_pos hl] at this
  · rw [if_neg hl]
    refine subKeep_eq_self _ _ (fun c hc => ?_)
    have := h3 c hc
    rwa [if_neg hl] at this

/-- C8: for every input string and every behavior of the external NFKD
collaborator, the output of `normalize_arabic` contains no character of the
tashkil range U+064B–U+065F: the deletion `re.sub(r'[ً-ٟ]', '', text)` is the
final step of the function. -/
theorem normalize_arabic_no_tashkil (nfkd : String → String) (s : String) :
    (normalize_arabic nfkd s).data.all (fun c => !isTashkil c) = true := by
  rw [List.all_eq_true]
  intro c hc
  have hdata : (normalize_arabic nfkd s).data
      = ((nfkd s).data.map arabicNormTable).filter (fun c => !isTashkil c) := rfl
  rw [hdata] at hc
  exact (List.mem_filter.mp hc).2

/-- C7: cleaning a whitespace-only string (for Arabic) and an emoji-only
string (for English) both yield the rejected marker `None`, under the recorded
facts about the two external collaborators (NFKD of the empty string is empty;
emoji removal maps the emoji-only string to the empty string and fixes the
empty string). -/
theorem clean_text_rejection_examples (nfkd er : String → String)
    (h1 : er "" = "") (h2 : nfkd "" = "") (h3 : er "😀😀😀" = "") :
    clean_text nfkd er (some "   ") "ar" = none ∧
    clean_text nfkd er (some "😀😀😀") "en" = none := by
  constructor
  · have hws : normWS "   " = "" := by decide
    have hnorm : normalize_arabic nfkd "" = "" := by
      unfold normalize_arabic
      rw [h2]
      decide
    simp only [clean_text, cleanCore, hws, h1, if_pos rfl, hnorm]
    decide
  · have hws : normWS "😀😀😀" = "😀😀😀" := by decide
    simp only [clean_text, cleanCore, hws, h3]
    have hne : ("en" : String) ≠ "ar" := by decide
    rw [if_neg hne]
    decide

/-- Witness for C7 at the concrete stand-ins for the external collaborators. -/
theorem clean_text_rejection_examples_witness :
    clean_text nfkdStub erStub (some "   ") "ar" = none ∧
    clean_text nfkdStub erStub (some "😀😀😀") "en" = none :=
  clean_text_rejection_examples nfkdStub erStub (by decide) rfl (by decide)

/-- C9, counterexample: the input consisting of three spaces contains only
allowed characters, and cleaning it yields the rejected marker; cleaning the
rejected marker again coerces `None` to the string "None" (line 171), so the
double clean yields `some "None"` and the idempotence equation fails. -/
theorem clean_text_idem_cex :
    clean_text nfkdStub erStub
        (clean_text nfkdStub erStub (some "   ") "en") "en" ≠
      clean_text nfkdStub erStub (some "   ") "en" := by decide

/-- C9, amended: cleaning is a fixed point after one pass for inputs that
clean to a non-rejected result and whose whitespace-collapsed, stripped form
is fixed by emoji removal, fixed by Arabic normalization when the language is
Arabic, and made of allowed characters only. -/
theorem clean_text_idem_amended (nfkd er : String → String) (x lang : String)
    (h1 : er (normWS x) = normWS x)
    (h2 : lang = "ar" → normalize_arabic nfkd (normWS x) = normWS x)
    (h3 : ∀ c ∈ (normWS x).data,
      (if lang = "ar" then arKeep c else enKeep c) = true)
    (h4 : normWS x ≠ "") :
    clean_text nfkd er (clean_text nfkd er (some x) lang) lang =
      clean_text nfkd er (some x) lang := by
  have hcore1 : cleanCore nfkd er x lang = normWS x :=
    cleanCore_of_fixed nfkd er lang x h1 h2 h3
  have hfirst : clean_text nfkd er (some x) lang = some (normWS x) := by
    simp only [clean_text]
    rw [hcore1, if_neg h4]
  rw [hfirst]
  have hrw : normWS (normWS x) = normWS x := normWS_idem x
  have hcore2 : cleanCore nfkd er (normWS x) lang = normWS x := by
    have := cleanCore_of_fixed nfkd er lang (normWS x)
      (by rw [hrw]; exact h1) (fun hl => by rw [hrw]; exact h2 hl)
      (by rw [hrw]; exact h3)
    rwa [hrw] at this
  simp only [clean_text]
  rw [hcore2, if_neg h4]

/-- Witness for C9 (amended) at a concrete input with only allowed
characters. -/
theorem clean_text_idem_amended_witness :
    clean_text nfkdStub erStub
        (clean_text nfkdStub erStub (some "ab") "en") "en" =
      clean_text nfkdStub erStub (some "ab") "en" :=
  clean_text_idem_amended nfkdStub erStub "ab" "en" (by decide) (by decide)
    (by decide) (by decide)

/-- C10: `clean_text` returns the rejected marker exactly when the transformed
text is the empty string, and the all-disallowed input of three dollar signs
cleans (for English) to a string of three spaces — whitespace only, with
leading and trailing spaces, not trimmed. -/
theorem clean_text_none_iff_and_untrimmed :
    (∀ nfkd er : String → String, ∀ lang t : String,
      clean_text nfkd er (some t) lang = none ↔
        cleanCore nfkd er t lang = "") ∧
    clean_text nfkdStub erStub (some "$$$") "en" = some "   " := by
  constructor
  · intro nfkd er lang t
    simp only [clean_text]
    by_cases h : cleanCore nfkd er t lang = ""
    · simp [h]
    · simp [h]
  · decide

/-- C3, counterexample: the raw engine output of the spec's example does not
post-process to the expected string — the article collapse runs after
capitalization and its pattern is lowercase with no ignore-case flag, so the
leading pair "The the" survives. -/
theorem postprocess_ar_en_example_cex :
    postprocessArEn "the the cat sat ." ≠ Except.ok "The cat sat." := by
  intro h
  rw [show postprocessArEn "the the cat sat ." =
    Except.ok "The the cat sat." from rfl] at h
  exact absurd (Except.ok.inj h) (by decide)

/-- C3, amended: the ar-en post-processing capitalizes the first character,
collapses lowercase consecutive article pairs (case-sensitively, after
capitalization), and removes a space before terminal punctuation; the spec's
example yields "The the cat sat.", while a non-leading lowercase article pair
does collapse. -/
theorem postprocess_ar_en_example_amended :
    postprocessArEn "the the cat sat ." = Except.ok "The the cat sat." ∧
    postprocessArEn "cat the the mat ." = Except.ok "Cat the mat." :=
  ⟨rfl, rfl⟩

/-- C4, counterexample: the en-ar space-deletion class is `؟ ، ؛` only — the
Arabic full stop is not in it — so the space before the substituted full stop
survives and the spec's expected output is not produced. -/
theorem postprocess_en_ar_example_cex :
    pyStrip (postprocessEnAr "مرحبا , كيف حالك .") ≠ "مرحبا، كيف حالك۔" := by
  decide

/-- C4, amended: the en-ar post-processing substitutes the Arabic full stop,
comma and angle quotes and removes a space only before `؟ ، ؛`; the example
therefore yields a string that keeps the space before the full stop. -/
theorem postprocess_en_ar_example_amended :
    pyStrip (postprocessEnAr "مرحبا , كيف حالك .") = "مرحبا، كيف حالك ۔" := rfl

theorem translateMiss_calls (engine : Option String → Except String String)
    (p : PipelineState) (text : String) (cleaned : Option String) :
    (translateMiss engine p text cleaned).2.2 = [cleaned] := by
  unfold translateMiss
  cases engine cleaned with
  | error e => rfl
  | ok raw =>
    dsimp only
    cases p.direction with
    | arEn =>
      dsimp only
      cases postprocessArEn raw with
      | error e => rfl
      | ok t => rfl
    | enAr => rfl

theorem translateMiss_error_state (engine : Option String → Except String String)
    (p : PipelineState) (text : String) (cleaned : Option String) (e : String)
    (h : (translateMiss engine p text cleaned).1 = Except.error e) :
    (translateMiss engine p text cleaned).2.1 = p := by
  unfold translateMiss at h ⊢
  revert h
  cases engine cleaned with
  | error e0 => intro h; rfl
  | ok raw =>
    dsimp only
    cases p.direction with
    | arEn =>
      dsimp only
      cases postprocessArEn raw with
      | error e1 => intro h; rfl
      | ok t => intro h; exact absurd h (by simp [storeResult])
    | enAr => intro h; exact absurd h (by simp [storeResult])

theorem translateMiss_ok_cache (engine : Option String → Except String String)
    (p : PipelineState) (text : String) (cleaned : Option String)
    (r : TranslationResult) (p' : PipelineState) (calls : List (Option String))
    (h : translateMiss engine p text cleaned = (Except.ok r, p', calls)) :
    cacheLookup p'.cache text = some r := by
  unfold translateMiss at h
  revert h
  cases engine cleaned with
  | error e => intro h; exact absurd h (by simp)
  | ok raw =>
    dsimp only
    cases p.direction with
    | arEn =>
      dsimp only
      cases postprocessArEn raw with
      | error e => intro h; exact absurd h (by simp)
      | ok t =>
        intro h
        unfold storeResult at h
        simp only [Prod.mk.injEq, Except.ok.injEq] at h
        obtain ⟨h1, h2, -⟩ := h
        subst h1; subst h2
        simp [cacheLookup]
    | enAr =>
      intro h
      unfold storeResult at h
      simp only [Prod.mk.injEq, Except.ok.injEq] at h
      obtain ⟨h1, h2, -⟩ := h
      subst h1; subst h2
      simp [cacheLookup]

theorem translate_text_ok_cache (engine : Option String → Except String String)
    (nfkd er : String → String) (p : PipelineState) (s : String)
    (r : TranslationResult) (p' : PipelineState) (calls : List (Option String))
    (h : translate_text engine nfkd er p s = (Except.ok r, p', calls)) :
    cacheLookup p'.cache s = some r := by
  unfold translate_text at h
  revert h
  cases hl : cacheLookup p.cache s with
  | some r0 =>
    intro h
    simp only [Prod.mk.injEq, Except.ok.injEq] at h
    obtain ⟨h1, h2, -⟩ := h
    subst h1; subst h2
    exact hl
  | none =>
    intro h
    exact translateMiss_ok_cache engine p s _ r p' calls h

/-- C1: if a call to `translate_text` on state `p` returns a result `r` and
state `p'`, the directly following call on `p'` with the same source string
returns the identical `TranslationResult` `r` from the cache, leaves the state
unchanged, and performs no engine invocation (the hit path runs neither the
cleaner, the engine, nor the post-processor). -/
theorem translate_text_second_call_cached
    (engine : Option String → Except String String) (nfkd er : String → String)
    (p : PipelineState) (s : String) (r : TranslationResult)
    (p' : PipelineState) (calls : List (Option String))
    (h : translate_text engine nfkd er p s = (Except.ok r, p', calls)) :
    translate_text engine nfkd er p' s = (Except.ok r, p', []) := by
  have hc := translate_text_ok_cache engine nfkd er p s r p' calls h
  unfold translate_text
  rw [hc]

/-- Witness for C1: a concrete first call on an empty en-ar cache with an
echoing engine, followed by the second call. -/
theorem translate_text_second_call_cached_witness :
    translate_text engineEcho nfkdStub erStub
        ⟨Direction.enAr, [("hi", ⟨"hi", some "hi", "hi"⟩)]⟩ "hi" =
      (Except.ok ⟨"hi", some "hi", "hi"⟩,
        ⟨Direction.enAr, [("hi", ⟨"hi", some "hi", "hi"⟩)]⟩, []) :=
  translate_text_second_call_cached engineEcho nfkdStub erStub
    ⟨Direction.enAr, []⟩ "hi" ⟨"hi", some "hi", "hi"⟩
    ⟨Direction.enAr, [("hi", ⟨"hi", some "hi", "hi"⟩)]⟩ [some "hi"] rfl

/-- C6: whenever `translate_text` fails — for any reason on the cache-miss
path: engine failure or post-processing failure, and for any engine and
collaborator behavior — the pipeline state (and so the translation cache) is
exactly what it was before the call. -/
theorem translate_text_error_leaves_cache
    (engine : Option String → Except String String) (nfkd er : String → String)
    (p : PipelineState) (text : String) (e : String)
    (h : (translate_text engine nfkd er p text).1 = Except.error e) :
    (translate_text engine nfkd er p text).2.1 = p := by
  unfold translate_text at h ⊢
  revert h
  cases hl : cacheLookup p.cache text with
  | some r => intro h; rfl
  | none =>
    intro h
    exact translateMiss_error_state engine p text _ e h

/-- Witness for C6: a concrete failing engine leaves the concrete state
untouched. -/
theorem translate_text_error_leaves_cache_witness :
    (translate_text (fun _ => Except.error "CUDA out of memory") nfkdStub
        erStub ⟨Direction.arEn, []⟩ "hi").2.1 = ⟨Direction.arEn, []⟩ :=
  translate_text_error_leaves_cache (fun _ => Except.error "CUDA out of memory")
    nfkdStub erStub ⟨Direction.arEn, []⟩ "hi" "CUDA out of memory" rfl

/-- C5, counterexample: on a cache miss whose cleaning yields the rejected
marker, `translate_text` does invoke the engine — with the rejected marker as
argument (the invocation list of the call is `[none]`) — and the failure it
surfaces is the tokenizer's own error, not an `EmptyInputError` (no such guard
or exception class exists in the code). -/
theorem translate_text_rejected_cex :
    (translate_text engineEcho nfkdStub erStub
        ⟨Direction.enAr, []⟩ "   ").2.2 = [none] ∧
    (translate_text engineEcho nfkdStub erStub ⟨Direction.enAr, []⟩ "   ").1 =
      Except.error "ValueError: text input must be of type str" :=
  ⟨rfl, rfl⟩

/-- C5, amended: on a cache miss, when cleaning yields the rejected marker,
`translate_text` performs exactly one engine (tokenizer) invocation, passing
the rejected marker, and whatever error the engine then raises is propagated
unchanged. -/
theorem translate_text_rejected_no_guard
    (engine : Option String → Except String String) (nfkd er : String → String)
    (p : PipelineState) (text : String)
    (hmiss : cacheLookup p.cache text = none)
    (hclean : clean_text nfkd er (some text) (srcLangOf p.direction) = none) :
    (translate_text engine nfkd er p text).2.2 = [none] ∧
    ∀ e, engine none = Except.error e →
      (translate_text engine nfkd er p text).1 = Except.error e := by
  have hm : translate_text engine nfkd er p text
      = translateMiss engine p text none := by
    unfold translate_text
    rw [hmiss, hclean]
  constructor
  · rw [hm]
    exact translateMiss_calls engine p text none
  · intro e he
    rw [hm]
    unfold translateMiss
    rw [he]

/-- Witness for C5 (amended) on a concrete whitespace-only input. -/
theorem translate_text_rejected_no_guard_witness :
    (translate_text engineEcho nfkdStub erStub
        ⟨Direction.enAr, []⟩ " \t ").2.2 = [none] :=
  (translate_text_rejected_no_guard engineEcho nfkdStub erStub
    ⟨Direction.enAr, []⟩ " \t " rfl (by decide)).1

/-- C2, counterexample: for direction en-ar, an engine that returns the empty
string makes `translate_text` return — and cache — a `TranslationResult` whose
`translated` field is empty after trimming while `cleaned` is non-null. -/
theorem translate_text_blank_cached_cex :
    (translate_text (fun _ => Except.ok "") nfkdStub erStub
        ⟨Direction.enAr, []⟩ "hello").1 =
      Except.ok ⟨"hello", some "hello", ""⟩ ∧
    (translate_text (fun _ => Except.ok "") nfkdStub erStub
        ⟨Direction.enAr, []⟩ "hello").2.1 =
      ⟨Direction.enAr, [("hello", ⟨"hello", some "hello", ""⟩)]⟩ :=
  ⟨rfl, rfl⟩

/-- C2, amended: when the engine returns an empty string on a cache miss, the
two directions diverge — ar-en fails (the capitalization `translated_text[0]`
raises an IndexError) and caches nothing, while en-ar post-processes the empty
string to an empty `translated` field that is cached and returned. -/
theorem translate_text_empty_engine_output
    (engine : Option String → Except String String) (nfkd er : String → String)
    (p : PipelineState) (text : String)
    (hmiss : cacheLookup p.cache text = none)
    (hraw : engine (clean_text nfkd er (some text) (srcLangOf p.direction)) =
      Except.ok "") :
    (p.direction = Direction.arEn →
      (translate_text engine nfkd er p text).1 =
        Except.error "IndexError: string index out of range" ∧
      (translate_text engine nfkd er p text).2.1 = p) ∧
    (p.direction = Direction.enAr →
      (translate_text engine nfkd er p text).1 =
        Except.ok ⟨text, clean_text nfkd er (some text) "en", ""⟩ ∧
      (translate_text engine nfkd er p text).2.1 =
        ⟨Direction.enAr,
          (text, ⟨text, clean_text nfkd er (some text) "en", ""⟩) ::
            p.cache⟩) := by
  have hm : translate_text engine nfkd er p text
      = translateMiss engine p text
          (clean_text nfkd er (some text) (srcLangOf p.direction)) := by
    unfold translate_text
    rw [hmiss]
  constructor
  · intro hdir
    rw [hm]
    unfold translateMiss
    rw [hraw, hdir]
    exact ⟨rfl, rfl⟩
  · intro hdir
    rw [hm]
    unfold translateMiss storeResult
    rw [hraw, hdir]
    exact ⟨rfl, rfl⟩

/-- Witness for C2 (amended), ar-en part, at a concrete pipeline state. -/
theorem translate_text_empty_engine_output_witness :
    (translate_text (fun _ => Except.ok "") nfkdStub erStub
        ⟨Direction.arEn, []⟩ "hi").1 =
      Except.error "IndexError: string index out of range" ∧
    (translate_text (fun _ => Except.ok "") nfkdStub erStub
        ⟨Direction.arEn, []⟩ "hi").2.1 = ⟨Direction.arEn, []⟩ :=
  (translate_text_empty_engine_output (fun _ => Except.ok "") nfkdStub erStub
    ⟨Direction.arEn, []⟩ "hi" rfl rfl).1 rfl
